import Mathlib

/-!
Shallow embedding of the query-execution engine of `internet_scholar.py`
(class `AthenaDatabase`, the dataset writer `save_data_in_s3` and the URL
validator `URLExpander.expand_url`), together with theorems checking the
natural-language specification against it.

The remote query service is modelled as an environment: attempt number
`a` (the a-th submission of a query within the process) is mapped to the
behaviour the service exhibits for it (the sequence of polled statuses,
the output location of the result object, and the objects the service
writes under the session output location).  The object store is a list of
key/content pairs.  Time (`time.sleep`) is recorded as trace events where
a claim mentions it.  The polling loop takes a fuel parameter because the
Python loop need not terminate (a service stuck in QUEUED forever); all
theorems about terminating runs take the termination witness as input.
-/

namespace InternetScholar

/-- Execution states polled from the remote service, as enumerated by the
code (`RUNNING`, `QUEUED` keep the loop alive; `SUCCEEDED`, `FAILED` are
terminal). -/
inductive QueryState where
  | RUNNING
  | QUEUED
  | SUCCEEDED
  | FAILED
deriving DecidableEq, Repr

/-- `AthenaDatabase.ATHENA_TIMEOUT` (line 295). -/
def ATHENA_TIMEOUT : Nat := 300

/-- `AthenaDatabase.MAX_ATHENA_ERRORS` (line 296). -/
def MAX_ATHENA_ERRORS : Nat := 5

/-- The waiting loop of `query_athena_and_wait` (lines 331-343):
state starts at the sentinel `RUNNING`, `elapsed_time` starts at 0, and
while `elapsed_time <= ATHENA_TIMEOUT and state in [RUNNING, QUEUED]` the
loop first adds 1 to `elapsed_time` when the current state is `RUNNING`,
then fetches the next status (`poll i` is the status returned by the
i-th `get_query_execution` call).  `fuel` bounds the number of
iterations we unfold; `none` means the loop did not stop within `fuel`
iterations (the Python loop would still be running). -/
def pollLoop (timeout : Nat) (poll : Nat → QueryState) :
    Nat → QueryState → Nat → Nat → Option (QueryState × Nat)
  | 0, _, _, _ => none
  | fuel + 1, st, elapsed, i =>
    if elapsed ≤ timeout ∧ (st = .RUNNING ∨ st = .QUEUED) then
      pollLoop timeout poll fuel (poll i) (elapsed + (if st = .RUNNING then 1 else 0)) (i + 1)
    else
      some (st, elapsed)

/-- The state the loop holds at the start of its t-th condition check:
the sentinel `RUNNING` before the first fetch, afterwards the status
fetched by the previous iteration. -/
def entryState (poll : Nat → QueryState) : Nat → QueryState
  | 0 => .RUNNING
  | t + 1 => poll t

/-- The value of `elapsed_time` at the start of the t-th condition check:
the number of earlier iterations entered with state `RUNNING` (iterations
entered in `QUEUED` state do not count). -/
def countRunning (poll : Nat → QueryState) : Nat → Nat
  | 0 => 0
  | t + 1 => countRunning poll t + (if entryState poll t = .RUNNING then 1 else 0)

theorem pollLoop_sound (timeout : Nat) (poll : Nat → QueryState) :
    ∀ fuel t s e,
      pollLoop timeout poll fuel (entryState poll t) (countRunning poll t) t = some (s, e) →
      ∃ t', t ≤ t' ∧ s = entryState poll t' ∧ e = countRunning poll t' ∧
        ¬(countRunning poll t' ≤ timeout ∧
            (entryState poll t' = .RUNNING ∨ entryState poll t' = .QUEUED)) ∧
        (∀ u, t ≤ u → u < t' → countRunning poll u ≤ timeout ∧
            (entryState poll u = .RUNNING ∨ entryState poll u = .QUEUED)) := by
  intro fuel
  induction fuel with
  | zero => intro t s e h; simp [pollLoop] at h
  | succ n ih =>
    intro t s e h
    by_cases hc : countRunning poll t ≤ timeout ∧
        (entryState poll t = .RUNNING ∨ entryState poll t = .QUEUED)
    · rw [pollLoop, if_pos hc] at h
      have h' : pollLoop timeout poll n (entryState poll (t + 1))
          (countRunning poll (t + 1)) (t + 1) = some (s, e) := by
        simpa [entryState, countRunning] using h
      obtain ⟨t', ht', hs, he, hstop, hrun⟩ := ih (t + 1) s e h'
      refine ⟨t', by omega, hs, he, hstop, ?_⟩
      intro u hu hu'
      rcases Nat.eq_or_lt_of_le hu with rfl | hlt
      · exact hc
      · exact hrun u hlt hu'
    · rw [pollLoop, if_neg hc] at h
      obtain ⟨rfl, rfl⟩ := Prod.mk.injEq .. ▸ Option.some.inj h
      exact ⟨t, Nat.le_refl t, rfl, rfl, hc, fun u hu hu' => absurd hu (by omega)⟩

theorem pollLoop_complete (timeout : Nat) (poll : Nat → QueryState) (tstop : Nat)
    (hstop : ¬(countRunning poll tstop ≤ timeout ∧
        (entryState poll tstop = .RUNNING ∨ entryState poll tstop = .QUEUED)))
    (hrun : ∀ u, u < tstop → countRunning poll u ≤ timeout ∧
        (entryState poll u = .RUNNING ∨ entryState poll u = .QUEUED)) :
    ∀ fuel t, t ≤ tstop → tstop - t < fuel →
      pollLoop timeout poll fuel (entryState poll t) (countRunning poll t) t =
        some (entryState poll tstop, countRunning poll tstop) := by
  intro fuel
  induction fuel with
  | zero => intro t h1 h2; omega
  | succ n ih =>
    intro t ht hfuel
    rcases Nat.eq_or_lt_of_le ht with rfl | hlt
    · rw [pollLoop, if_neg hstop]
    · rw [pollLoop, if_pos (hrun t hlt)]
      have := ih (t + 1) (by omega) (by omega)
      simpa [entryState, countRunning] using this

/-- C3: In the polling loop of query_athena_and_wait, for every sequence
of polled statuses, the elapsed counter is incremented only on iterations
whose state is RUNNING (iterations in QUEUED state are not counted
against the timeout), and the loop terminates exactly when the status
becomes SUCCEEDED or FAILED or the elapsed counter exceeds the
configured timeout, whose default is 300 time units. -/
theorem polling_loop_spec :
    ATHENA_TIMEOUT = 300 ∧
    (∀ poll fuel s e,
      pollLoop ATHENA_TIMEOUT poll fuel .RUNNING 0 0 = some (s, e) →
      ∃ t, s = entryState poll t ∧ e = countRunning poll t ∧
        (s = .SUCCEEDED ∨ s = .FAILED ∨ ATHENA_TIMEOUT < e) ∧
        (∀ u, u < t → countRunning poll u ≤ ATHENA_TIMEOUT ∧
            (entryState poll u = .RUNNING ∨ entryState poll u = .QUEUED))) ∧
    (∀ poll t,
      (∀ u, u < t → countRunning poll u ≤ ATHENA_TIMEOUT ∧
          (entryState poll u = .RUNNING ∨ entryState poll u = .QUEUED)) →
      (entryState poll t = .SUCCEEDED ∨ entryState poll t = .FAILED ∨
          ATHENA_TIMEOUT < countRunning poll t) →
      ∀ fuel, t < fuel →
        pollLoop ATHENA_TIMEOUT poll fuel .RUNNING 0 0 =
          some (entryState poll t, countRunning poll t)) := by
  refine ⟨rfl, ?_, ?_⟩
  · intro poll fuel s e h
    have h0 : pollLoop ATHENA_TIMEOUT poll fuel (entryState poll 0) (countRunning poll 0) 0 =
        some (s, e) := by simpa [entryState, countRunning] using h
    obtain ⟨t, _, hs, he, hstop, hrun⟩ := pollLoop_sound ATHENA_TIMEOUT poll fuel 0 s e h0
    refine ⟨t, hs, he, ?_, fun u hu => hrun u (Nat.zero_le u) hu⟩
    by_cases hle : countRunning poll t ≤ ATHENA_TIMEOUT
    · have hterm : ¬(entryState poll t = .RUNNING ∨ entryState poll t = .QUEUED) := by
        intro hor; exact hstop ⟨hle, hor⟩
      cases hcase : entryState poll t with
      | RUNNING => rw [hcase] at hterm; simp at hterm
      | QUEUED => rw [hcase] at hterm; simp at hterm
      | SUCCEEDED => exact Or.inl (hs.trans hcase)
      | FAILED => exact Or.inr (Or.inl (hs.trans hcase))
    · exact Or.inr (Or.inr (he ▸ by omega))
  · intro poll t hrun hterm fuel hfuel
    have hstop : ¬(countRunning poll t ≤ ATHENA_TIMEOUT ∧
        (entryState poll t = .RUNNING ∨ entryState poll t = .QUEUED)) := by
      rintro ⟨hle, hor⟩
      rcases hterm with h | h | h
      · rcases hor with h2 | h2 <;> rw [h] at h2 <;> simp at h2
      · rcases hor with h2 | h2 <;> rw [h] at h2 <;> simp at h2
      · omega
    have := pollLoop_complete ATHENA_TIMEOUT poll t hstop hrun fuel 0 (Nat.zero_le t)
      (by omega)
    simpa [entryState, countRunning] using this

/-- Witness for C3: a query whose first polled status is SUCCEEDED stops
the loop after one RUNNING iteration with elapsed counter 1. -/
theorem polling_loop_spec_witness :
    pollLoop ATHENA_TIMEOUT (fun _ => QueryState.SUCCEEDED) 2 .RUNNING 0 0 =
      some (entryState (fun _ => QueryState.SUCCEEDED) 1,
        countRunning (fun _ => QueryState.SUCCEEDED) 1) := by
  refine polling_loop_spec.2.2 (fun _ => QueryState.SUCCEEDED) 1 ?_ ?_ 2 (by omega)
  · intro u hu
    interval_cases u
    exact ⟨by decide, Or.inl rfl⟩
  · exact Or.inl rfl

/-- An object in the result bucket: full key and content (content is the
byte string of the object; we model bytes as characters). -/
structure S3Obj where
  key : String
  content : String
deriving DecidableEq, Repr

/-- Service behaviour for one submission (one `start_query_execution`
call): the execution id it returns, the statuses successive
`get_query_execution` calls report, the `OutputLocation` of the result
object, and the objects the service writes under the session output
location (relative name and content). -/
structure Attempt where
  execId : String
  polls : Nat → QueryState
  outputLocation : String
  written : List (String × String)

/-- Test that the first char list is an initial segment of the second;
models the key filter of `bucket.objects.filter(Prefix=...)`. -/
def listStarts : List Char → List Char → Bool
  | [], _ => true
  | _ :: _, [] => false
  | a :: as, b :: bs => a == b && listStarts as bs

/-- Key filter of the prefix-scoped S3 delete. -/
def keyHasPfx (pfx key : String) : Bool :=
  listStarts pfx.data key.data

/-- `bucket.objects.filter(Prefix=pfx).delete()`: remove every object
whose key starts with `pfx`. -/
def deleteByPfx (pfx : String) (s3 : List S3Obj) : List S3Obj :=
  s3.filter (fun o => !(keyHasPfx pfx o.key))

/-- The objects one submission causes the service to write under the
session output location (full key = output location, a slash, and the
relative name). -/
def writesOf (pfx : String) (att : Attempt) : List S3Obj :=
  att.written.map (fun nc => ⟨pfx ++ "/" ++ nc.1, nc.2⟩)

/-- Read an object by key (the `Body.read` of `s3.Object(...).get()`);
`none` models the absent-key client error. -/
def s3Get (s3 : List S3Obj) (key : String) : Option String :=
  (s3.find? (fun o => o.key == key)).map (fun o => o.content)

/-- Chars after the last occurrence of `c` (the whole list when `c` does
not occur). -/
def afterLast (c : Char) (l : List Char) : List Char :=
  (l.reverse.takeWhile (fun x => x != c)).reverse

/-- The base filename extraction used on the result object path: the
regular expression group of `re.findall(".*/(.*)", s3_path)[0]` (line
366), which is also the semantics of `os.path.basename` on the paths the
code builds. -/
def basenameStr (s : String) : String :=
  String.mk (afterLast (Char.ofNat 47) s.data)

/-- How one `query_athena_and_wait` call ends. -/
inductive WaitStatus where
  | ok (result : Option String)
  | fatal
  | pending
deriving DecidableEq, Repr

/-- Externally visible actions of one `query_athena_and_wait` call that
the claims mention: query submissions (`start_query_execution`) and the
retry cooldown (`time.sleep(5)`).  The one-second sleeps inside the
polling loop happen between the submission that starts an attempt and
the next event. -/
inductive WaitEvent where
  | submit (execId : String) (query : String)
  | cooldown (secs : Nat)
deriving DecidableEq, Repr

/-- Result of a `query_athena_and_wait` call: how it ended, the value of
`self.athena_failures` afterwards, the object store afterwards, and the
event trace. -/
structure WaitRun where
  status : WaitStatus
  failures : Nat
  s3 : List S3Obj
  trace : List WaitEvent
deriving DecidableEq, Repr

/-- `AthenaDatabase.query_athena_and_wait` (lines 328-368), with the
retry recursion made structural on an explicit retry fuel `rfuel`.  The
recursion of the source is bounded: a retry happens only while the
incremented failure counter stays at most `MAX_ATHENA_ERRORS`, so with
`rfuel = MAX_ATHENA_ERRORS + 2` the fuel never runs out (see
`waitAux_fuel_congr`).  Arguments: `a` is the index of the submission
this call performs first, `f` the entry value of `self.athena_failures`,
`s3` the object store at entry. -/
def waitAux (env : Nat → Attempt) (pf : Nat) (q : String) (dr : Bool) (pfx : String) :
    Nat → Nat → Nat → List S3Obj → WaitRun
  | 0, _, f, s3 => ⟨.pending, f, s3, []⟩
  | rfuel + 1, a, f, s3 =>
    let att := env a
    let s3w := s3 ++ writesOf pfx att
    match pollLoop ATHENA_TIMEOUT att.polls pf .RUNNING 0 0 with
    | none => ⟨.pending, f, s3w, [.submit att.execId q]⟩
    | some (st, _) =>
      if st = .SUCCEEDED then
        if dr then
          ⟨.ok none, 0, deleteByPfx pfx s3w, [.submit att.execId q]⟩
        else
          ⟨.ok (some (basenameStr att.outputLocation)), 0, s3w, [.submit att.execId q]⟩
      else
        if f + 1 > MAX_ATHENA_ERRORS then
          ⟨.fatal, f + 1, s3w, [.submit att.execId q]⟩
        else
          let rest := waitAux env pf q dr pfx rfuel (a + 1) (f + 1) s3w
          ⟨rest.status, rest.failures, rest.s3, .submit att.execId q :: .cooldown 5 :: rest.trace⟩

/-- `query_athena_and_wait` proper: run `waitAux` with enough retry fuel
that the fuel bound is never hit. -/
def query_athena_and_wait (env : Nat → Attempt) (pf : Nat) (q : String) (dr : Bool)
    (pfx : String) (a f : Nat) (s3 : List S3Obj) : WaitRun :=
  waitAux env pf q dr pfx (MAX_ATHENA_ERRORS + 2) a f s3

/-- Terminal outcome of the polling loop for the a-th submission. -/
def attemptResult (env : Nat → Attempt) (pf a : Nat) : Option (QueryState × Nat) :=
  pollLoop ATHENA_TIMEOUT (env a).polls pf .RUNNING 0 0

/-- The a-th submission reaches a terminal loop exit that is not
SUCCEEDED (FAILED, or a timeout in RUNNING or QUEUED state). -/
def failsAt (env : Nat → Attempt) (pf a : Nat) : Prop :=
  ∃ st e, attemptResult env pf a = some (st, e) ∧ st ≠ .SUCCEEDED

/-- The a-th submission exits the polling loop in state SUCCEEDED. -/
def succeedsAt (env : Nat → Attempt) (pf a : Nat) : Prop :=
  ∃ e, attemptResult env pf a = some (.SUCCEEDED, e)

theorem waitAux_step (env : Nat → Attempt) (pf : Nat) (q : String) (dr : Bool)
    (pfx : String) (r a f : Nat) (s3 : List S3Obj) :
    waitAux env pf q dr pfx (r + 1) a f s3 =
      match pollLoop ATHENA_TIMEOUT (env a).polls pf .RUNNING 0 0 with
      | none => ⟨.pending, f, s3 ++ writesOf pfx (env a), [.submit (env a).execId q]⟩
      | some (st, _) =>
        if st = .SUCCEEDED then
          if dr then
            ⟨.ok none, 0, deleteByPfx pfx (s3 ++ writesOf pfx (env a)),
              [.submit (env a).execId q]⟩
          else
            ⟨.ok (some (basenameStr (env a).outputLocation)), 0,
              s3 ++ writesOf pfx (env a), [.submit (env a).execId q]⟩
        else
          if f + 1 > MAX_ATHENA_ERRORS then
            ⟨.fatal, f + 1, s3 ++ writesOf pfx (env a), [.submit (env a).execId q]⟩
          else
            let rest := waitAux env pf q dr pfx r (a + 1) (f + 1) (s3 ++ writesOf pfx (env a))
            ⟨rest.status, rest.failures, rest.s3,
              .submit (env a).execId q :: .cooldown 5 :: rest.trace⟩ := rfl

theorem waitAux_fuel_congr (env : Nat → Attempt) (pf : Nat) (q : String) (dr : Bool)
    (pfx : String) :
    ∀ r₁ r₂ a f s3, MAX_ATHENA_ERRORS + 1 - f < r₁ → MAX_ATHENA_ERRORS + 1 - f < r₂ →
      waitAux env pf q dr pfx r₁ a f s3 = waitAux env pf q dr pfx r₂ a f s3 := by
  intro r₁
  induction r₁ with
  | zero =>
    intro r₂ a f s3 h1 _
    omega
  | succ n ih =>
    intro r₂ a f s3 h1 h2
    obtain ⟨m, rfl⟩ : ∃ m, r₂ = m + 1 := ⟨r₂ - 1, by omega⟩
    rw [waitAux_step, waitAux_step]
    cases hp : pollLoop ATHENA_TIMEOUT (env a).polls pf .RUNNING 0 0 with
    | none => rfl
    | some v =>
      obtain ⟨st, e⟩ := v
      by_cases hst : st = .SUCCEEDED
      · simp only [if_pos hst]
      · simp only [if_neg hst]
        by_cases hmax : f + 1 > MAX_ATHENA_ERRORS
        · simp only [if_pos hmax]
        · simp only [if_neg hmax]
          rw [ih m (a + 1) (f + 1) (s3 ++ writesOf pfx (env a))
            (by simp only [MAX_ATHENA_ERRORS] at hmax h1 ⊢; omega)
            (by simp only [MAX_ATHENA_ERRORS] at hmax h2 ⊢; omega)]

theorem wait_pending (env : Nat → Attempt) (pf : Nat) (q : String) (dr : Bool)
    (pfx : String) (a f : Nat) (s3 : List S3Obj)
    (h : attemptResult env pf a = none) :
    query_athena_and_wait env pf q dr pfx a f s3 =
      ⟨.pending, f, s3 ++ writesOf pfx (env a), [.submit (env a).execId q]⟩ := by
  rw [query_athena_and_wait, MAX_ATHENA_ERRORS, waitAux_step]
  rw [attemptResult] at h
  rw [h]

theorem wait_succ (env : Nat → Attempt) (pf : Nat) (q : String) (dr : Bool)
    (pfx : String) (a f : Nat) (s3 : List S3Obj) (e : Nat)
    (h : attemptResult env pf a = some (.SUCCEEDED, e)) :
    query_athena_and_wait env pf q dr pfx a f s3 =
      if dr then
        ⟨.ok none, 0, deleteByPfx pfx (s3 ++ writesOf pfx (env a)),
          [.submit (env a).execId q]⟩
      else
        ⟨.ok (some (basenameStr (env a).outputLocation)), 0,
          s3 ++ writesOf pfx (env a), [.submit (env a).execId q]⟩ := by
  rw [query_athena_and_wait, MAX_ATHENA_ERRORS, waitAux_step]
  rw [attemptResult] at h
  rw [h]
  rfl

theorem wait_fail_fatal (env : Nat → Attempt) (pf : Nat) (q : String) (dr : Bool)
    (pfx : String) (a f : Nat) (s3 : List S3Obj) (st : QueryState) (e : Nat)
    (h : attemptResult env pf a = some (st, e)) (hst : st ≠ .SUCCEEDED)
    (hf : MAX_ATHENA_ERRORS ≤ f) :
    query_athena_and_wait env pf q dr pfx a f s3 =
      ⟨.fatal, f + 1, s3 ++ writesOf pfx (env a), [.submit (env a).execId q]⟩ := by
  rw [query_athena_and_wait, MAX_ATHENA_ERRORS, waitAux_step]
  rw [attemptResult] at h
  rw [h]
  simp only [if_neg hst, if_pos (show f + 1 > MAX_ATHENA_ERRORS by
    rw [MAX_ATHENA_ERRORS]; rw [MAX_ATHENA_ERRORS] at hf; omega)]

theorem wait_fail_step (env : Nat → Attempt) (pf : Nat) (q : String) (dr : Bool)
    (pfx : String) (a f : Nat) (s3 : List S3Obj) (st : QueryState) (e : Nat)
    (h : attemptResult env pf a = some (st, e)) (hst : st ≠ .SUCCEEDED)
    (hf : f < MAX_ATHENA_ERRORS) :
    query_athena_and_wait env pf q dr pfx a f s3 =
      ⟨(query_athena_and_wait env pf q dr pfx (a + 1) (f + 1)
          (s3 ++ writesOf pfx (env a))).status,
        (query_athena_and_wait env pf q dr pfx (a + 1) (f + 1)
          (s3 ++ writesOf pfx (env a))).failures,
        (query_athena_and_wait env pf q dr pfx (a + 1) (f + 1)
          (s3 ++ writesOf pfx (env a))).s3,
        .submit (env a).execId q :: .cooldown 5 ::
          (query_athena_and_wait env pf q dr pfx (a + 1) (f + 1)
            (s3 ++ writesOf pfx (env a))).trace⟩ := by
  conv_lhs => rw [query_athena_and_wait, MAX_ATHENA_ERRORS, waitAux_step]
  rw [attemptResult] at h
  rw [h]
  simp only [if_neg hst, if_neg (show ¬(f + 1 > MAX_ATHENA_ERRORS) by
    rw [MAX_ATHENA_ERRORS]; rw [MAX_ATHENA_ERRORS] at hf; omega)]
  rw [show (5 + 1 : Nat) = MAX_ATHENA_ERRORS + 1 by rw [MAX_ATHENA_ERRORS]]
  rw [waitAux_fuel_congr env pf q dr pfx (MAX_ATHENA_ERRORS + 1) (MAX_ATHENA_ERRORS + 2)
    (a + 1) (f + 1) (s3 ++ writesOf pfx (env a))
    (by rw [MAX_ATHENA_ERRORS]; omega) (by rw [MAX_ATHENA_ERRORS]; omega)]
  rfl

/-- Objects the service writes during submissions `a, a+1, ..., a+k-1`. -/
def allWrites (env : Nat → Attempt) (pfx : String) (a : Nat) : Nat → List S3Obj
  | 0 => []
  | k + 1 => writesOf pfx (env a) ++ allWrites env pfx (a + 1) k

/-- Event trace of a call whose k submissions all fail, ending in the
fatal abort: every failed submission except the last is followed by the
five-second cooldown and the next submission. -/
def failTrace (env : Nat → Attempt) (q : String) (a : Nat) : Nat → List WaitEvent
  | 0 => []
  | 1 => [.submit (env a).execId q]
  | k + 2 => .submit (env a).execId q :: .cooldown 5 :: failTrace env q (a + 1) (k + 1)

/-- Event trace of a call with k failed submissions followed by one
successful submission. -/
def succTrace (env : Nat → Attempt) (q : String) (a : Nat) : Nat → List WaitEvent
  | 0 => [.submit (env a).execId q]
  | k + 1 => .submit (env a).execId q :: .cooldown 5 :: succTrace env q (a + 1) k

theorem wait_run_fail (env : Nat → Attempt) (pf : Nat) (q : String) (dr : Bool)
    (pfx : String) :
    ∀ n a f s3, f + n = MAX_ATHENA_ERRORS →
      (∀ j, j ≤ n → failsAt env pf (a + j)) →
      query_athena_and_wait env pf q dr pfx a f s3 =
        ⟨.fatal, MAX_ATHENA_ERRORS + 1, s3 ++ allWrites env pfx a (n + 1),
          failTrace env q a (n + 1)⟩ := by
  intro n
  induction n with
  | zero =>
    intro a f s3 hf hfail
    obtain ⟨st, e, hres, hst⟩ := hfail 0 (Nat.le_refl 0)
    rw [Nat.add_zero] at hres
    rw [wait_fail_fatal env pf q dr pfx a f s3 st e hres hst (by omega)]
    simp [allWrites, failTrace]
    omega
  | succ n ih =>
    intro a f s3 hf hfail
    obtain ⟨st, e, hres, hst⟩ := hfail 0 (Nat.zero_le _)
    rw [Nat.add_zero] at hres
    rw [wait_fail_step env pf q dr pfx a f s3 st e hres hst (by omega)]
    rw [ih (a + 1) (f + 1) (s3 ++ writesOf pfx (env a)) (by omega)
      (fun j hj => by
        have := hfail (j + 1) (by omega)
        rwa [show a + (j + 1) = a + 1 + j by omega] at this)]
    simp only [allWrites, failTrace, List.append_assoc]

theorem wait_run_succ (env : Nat → Attempt) (pf : Nat) (q : String) (dr : Bool)
    (pfx : String) :
    ∀ k a f s3 e, f + k ≤ MAX_ATHENA_ERRORS →
      (∀ j, j < k → failsAt env pf (a + j)) →
      attemptResult env pf (a + k) = some (.SUCCEEDED, e) →
      query_athena_and_wait env pf q dr pfx a f s3 =
        ⟨.ok (if dr then none else some (basenameStr (env (a + k)).outputLocation)), 0,
          (if dr then deleteByPfx pfx (s3 ++ allWrites env pfx a (k + 1))
            else s3 ++ allWrites env pfx a (k + 1)),
          succTrace env q a k⟩ := by
  intro k
  induction k with
  | zero =>
    intro a f s3 e _ _ hsucc
    rw [Nat.add_zero] at hsucc
    rw [wait_succ env pf q dr pfx a f s3 e hsucc]
    cases dr <;> simp [allWrites, succTrace]
  | succ k ih =>
    intro a f s3 e hcap hfail hsucc
    obtain ⟨st, e0, hres, hst⟩ := hfail 0 (by omega)
    rw [Nat.add_zero] at hres
    rw [wait_fail_step env pf q dr pfx a f s3 st e0 hres hst (by omega)]
    rw [ih (a + 1) (f + 1) (s3 ++ writesOf pfx (env a)) e (by omega)
      (fun j hj => by
        have := hfail (j + 1) (by omega)
        rwa [show a + (j + 1) = a + 1 + j by omega] at this)
      (by rwa [show a + 1 + k = a + (k + 1) by omega])]
    rw [show a + 1 + k = a + (k + 1) by omega]
    cases dr <;> simp [allWrites, succTrace, List.append_assoc]

/-- Every call performs its own first submission as its first trace
event, whatever happens afterwards. -/
theorem wait_trace_head (env : Nat → Attempt) (pf : Nat) (q : String) (dr : Bool)
    (pfx : String) (a f : Nat) (s3 : List S3Obj) :
    (query_athena_and_wait env pf q dr pfx a f s3).trace.head? =
      some (.submit (env a).execId q) := by
  rw [query_athena_and_wait, MAX_ATHENA_ERRORS, waitAux_step]
  cases hp : pollLoop ATHENA_TIMEOUT (env a).polls pf .RUNNING 0 0 with
  | none => rfl
  | some v =>
    obtain ⟨st, e⟩ := v
    by_cases hst : st = .SUCCEEDED
    · simp only [if_pos hst]
      cases dr <;> rfl
    · simp only [if_neg hst]
      by_cases hmax : f + 1 > MAX_ATHENA_ERRORS
      · simp only [if_pos hmax]
        rfl
      · simp only [if_neg hmax]
        rfl

theorem takeWhile_append_all {α : Type} (p : α → Bool) :
    ∀ (l : List α) (y : α) (t : List α), (∀ x ∈ l, p x = true) → p y = false →
      (l ++ y :: t).takeWhile p = l := by
  intro l
  induction l with
  | nil =>
    intro y t _ hy
    simp [List.takeWhile_cons, hy]
  | cons a as ih =>
    intro y t hall hy
    rw [List.cons_append, List.takeWhile_cons, hall a (by simp)]
    rw [ih y t (fun x hx => hall x (by simp [hx])) hy]
    simp

theorem string_data_append (a b : String) : (a ++ b).data = a.data ++ b.data := rfl

theorem string_mk_data (s : String) : String.mk s.data = s := rfl

theorem basenameStr_append (d name : String) (h : Char.ofNat 47 ∉ name.data) :
    basenameStr (d ++ "/" ++ name) = name := by
  have hslash : "/".data = [Char.ofNat 47] := by decide
  have hd : (d ++ "/" ++ name).data = d.data ++ Char.ofNat 47 :: name.data := by
    rw [string_data_append, string_data_append, hslash]
    simp
  rw [basenameStr, afterLast, hd, List.reverse_append, List.reverse_cons, List.append_assoc,
    List.singleton_append]
  rw [takeWhile_append_all _ name.data.reverse (Char.ofNat 47) d.data.reverse
    (fun x hx => by
      have hxm : x ∈ name.data := List.mem_reverse.mp hx
      have : x ≠ Char.ofNat 47 := fun heq => h (heq ▸ hxm)
      simpa using this)
    (by simp)]
  rw [List.reverse_reverse, string_mk_data]

theorem mem_deleteByPfx (pfx : String) (s3 : List S3Obj) :
    ∀ o ∈ deleteByPfx pfx s3, keyHasPfx pfx o.key = false := by
  intro o ho
  have := List.of_mem_filter ho
  simpa using this

/-- C4: For every query that reaches the SUCCEEDED state,
query_athena_and_wait called with delete_results=True deletes every
object under the session output location and returns no result name
(None), and called with delete_results=False returns the base filename
of the result object while deleting nothing, leaving the output location
intact. -/
theorem wait_success_results_spec :
    ∀ env pf q pfx a f s3 e, attemptResult env pf a = some (.SUCCEEDED, e) →
      (query_athena_and_wait env pf q true pfx a f s3 =
        ⟨.ok none, 0, deleteByPfx pfx (s3 ++ writesOf pfx (env a)),
          [.submit (env a).execId q]⟩ ∧
       ∀ o ∈ (query_athena_and_wait env pf q true pfx a f s3).s3,
         keyHasPfx pfx o.key = false) ∧
      (query_athena_and_wait env pf q false pfx a f s3 =
        ⟨.ok (some (basenameStr (env a).outputLocation)), 0,
          s3 ++ writesOf pfx (env a), [.submit (env a).execId q]⟩ ∧
       ∀ d name, (env a).outputLocation = d ++ "/" ++ name →
         Char.ofNat 47 ∉ name.data →
         (query_athena_and_wait env pf q false pfx a f s3).status = .ok (some name)) := by
  intro env pf q pfx a f s3 e h
  refine ⟨⟨?_, ?_⟩, ⟨?_, ?_⟩⟩
  · rw [wait_succ env pf q true pfx a f s3 e h]
    rfl
  · rw [wait_succ env pf q true pfx a f s3 e h]
    exact mem_deleteByPfx pfx (s3 ++ writesOf pfx (env a))
  · rw [wait_succ env pf q false pfx a f s3 e h]
    rfl
  · intro d name hout hname
    rw [wait_succ env pf q false pfx a f s3 e h, hout, basenameStr_append d name hname]
    rfl

/-- Witness environment: one attempt whose first polled status is
SUCCEEDED, with a result object written under the session output
location. -/
def envSucc : Nat → Attempt := fun a =>
  ⟨"exec" ++ toString a, fun _ => .SUCCEEDED,
    "s3://bucket/tmp/athena/x/result" ++ toString a ++ ".csv",
    [("result" ++ toString a ++ ".csv", "c1,c2" ++ String.mk [Char.ofNat 10] ++ "v1,v2")]⟩

/-- Witness environment: every submission fails immediately. -/
def envSixFail : Nat → Attempt := fun a =>
  ⟨"exec" ++ toString a, fun _ => .FAILED,
    "s3://bucket/tmp/athena/x/result" ++ toString a ++ ".csv",
    [("metadata" ++ toString a ++ ".txt", "m")]⟩

/-- Witness environment: submissions 3 and 8 succeed, all others fail.
A session issuing one call starting at submission 0 sees three failures
and then a success; a second call starting at submission 4 sees four
failures and then a success. -/
def envMixed : Nat → Attempt := fun a =>
  ⟨"exec" ++ toString a,
    (fun _ => if a = 3 ∨ a = 8 then .SUCCEEDED else .FAILED),
    "s3://bucket/tmp/athena/x/result" ++ toString a ++ ".csv",
    [("result" ++ toString a ++ ".csv", "tab")]⟩

/-- Witness for C4: concrete successful query, with and without
delete_results. -/
theorem wait_success_results_spec_witness :
    (query_athena_and_wait envSucc 3 "select 1" true "tmp/athena/x" 0 0 []).s3.all
      (fun o => !(keyHasPfx "tmp/athena/x" o.key)) = true ∧
    (query_athena_and_wait envSucc 3 "select 1" false "tmp/athena/x" 0 0 []).status =
      .ok (some "result0.csv") := by
  constructor
  · have h := ((wait_success_results_spec envSucc 3 "select 1" "tmp/athena/x" 0 0 [] 1
      (by decide)).1).2
    rw [List.all_eq_true]
    intro o ho
    simpa using h o ho
  · exact ((wait_success_results_spec envSucc 3 "select 1" "tmp/athena/x" 0 0 [] 1
      (by decide)).2).2 "s3://bucket/tmp/athena/x" "result0.csv" (by decide) (by decide)

/-- C1: The session consecutive-failure counter is an invariant
maintained across every query_athena_and_wait call of one engine
session: it is reset to 0 on any SUCCEEDED terminal execution,
incremented by 1 on any non-SUCCEEDED terminal execution (FAILED or
timeout), and the session aborts fatally once the counter exceeds the
configured maximum of 5; in particular, 6 consecutive failures with no
intervening success abort, while 3 failures followed by one success
followed by 4 failures do not abort. -/
theorem failure_counter_invariant :
    MAX_ATHENA_ERRORS = 5 ∧
    (∀ env pf q dr pfx n a f s3, f + n = MAX_ATHENA_ERRORS →
      (∀ j, j ≤ n → failsAt env pf (a + j)) →
      (query_athena_and_wait env pf q dr pfx a f s3).status = .fatal ∧
      (query_athena_and_wait env pf q dr pfx a f s3).failures = MAX_ATHENA_ERRORS + 1) ∧
    (∀ env pf q dr pfx k a f s3 e, f + k ≤ MAX_ATHENA_ERRORS →
      (∀ j, j < k → failsAt env pf (a + j)) →
      attemptResult env pf (a + k) = some (.SUCCEEDED, e) →
      ∃ r, (query_athena_and_wait env pf q dr pfx a f s3).status = .ok r ∧
        (query_athena_and_wait env pf q dr pfx a f s3).failures = 0) ∧
    ((query_athena_and_wait envSixFail 3 "q" true "tmp/athena/x" 0 0 []).status = .fatal ∧
     (query_athena_and_wait envMixed 3 "q" true "tmp/athena/x" 0 0 []).status = .ok none ∧
     (query_athena_and_wait envMixed 3 "q" true "tmp/athena/x" 0 0 []).failures = 0 ∧
     (query_athena_and_wait envMixed 3 "q" true "tmp/athena/x" 4
        (query_athena_and_wait envMixed 3 "q" true "tmp/athena/x" 0 0 []).failures
        (query_athena_and_wait envMixed 3 "q" true "tmp/athena/x" 0 0 []).s3).status =
       .ok none) := by
  refine ⟨rfl, ?_, ?_, by decide⟩
  · intro env pf q dr pfx n a f s3 hf hfail
    rw [wait_run_fail env pf q dr pfx n a f s3 hf hfail]
    exact ⟨rfl, rfl⟩
  · intro env pf q dr pfx k a f s3 e hcap hfail hsucc
    rw [wait_run_succ env pf q dr pfx k a f s3 e hcap hfail hsucc]
    exact ⟨_, rfl, rfl⟩

/-- Witness for C1: the quantified parts applied to the concrete
environments (all attempts fail, and three failures then a success). -/
theorem failure_counter_invariant_witness :
    ((query_athena_and_wait envSixFail 3 "q" true "p" 0 0 []).status = .fatal ∧
     (query_athena_and_wait envSixFail 3 "q" true "p" 0 0 []).failures =
       MAX_ATHENA_ERRORS + 1) ∧
    (∃ r, (query_athena_and_wait envMixed 3 "q" true "p" 0 0 []).status = .ok r ∧
      (query_athena_and_wait envMixed 3 "q" true "p" 0 0 []).failures = 0) := by
  constructor
  · exact failure_counter_invariant.2.1 envSixFail 3 "q" true "p" 5 0 0 [] (by decide)
      (fun j hj => ⟨.FAILED, 1, rfl, by decide⟩)
  · exact failure_counter_invariant.2.2.1 envMixed 3 "q" true "p" 3 0 0 [] 1 (by decide)
      (fun j hj => by
        interval_cases j <;> exact ⟨.FAILED, 1, by decide, by decide⟩)
      (by decide)

/-- C2: Within one logical query_athena_and_wait call, every terminal
failure (FAILED or timeout, treated identically) whose incremented
failure count does not exceed the maximum is followed by a cooldown of 5
time units and a resubmission of the identical query text from scratch,
obtaining a fresh execution id (the id assigned to the next submission);
once the failure count exceeds the maximum, the call aborts fatally
without attempting any further submission; if some later attempt
succeeds, the call returns successfully. -/
theorem retry_policy_spec :
    (∀ env pf q dr pfx a f s3 st e,
      attemptResult env pf a = some (st, e) → st ≠ .SUCCEEDED →
      f < MAX_ATHENA_ERRORS →
      (query_athena_and_wait env pf q dr pfx a f s3).trace =
        .submit (env a).execId q :: .cooldown 5 ::
          (query_athena_and_wait env pf q dr pfx (a + 1) (f + 1)
            (s3 ++ writesOf pfx (env a))).trace ∧
      (query_athena_and_wait env pf q dr pfx (a + 1) (f + 1)
          (s3 ++ writesOf pfx (env a))).trace.head? =
        some (.submit (env (a + 1)).execId q) ∧
      (query_athena_and_wait env pf q dr pfx a f s3).status =
        (query_athena_and_wait env pf q dr pfx (a + 1) (f + 1)
          (s3 ++ writesOf pfx (env a))).status) ∧
    (∀ env pf q dr pfx a f s3 st e,
      attemptResult env pf a = some (st, e) → st ≠ .SUCCEEDED →
      MAX_ATHENA_ERRORS ≤ f →
      query_athena_and_wait env pf q dr pfx a f s3 =
        ⟨.fatal, f + 1, s3 ++ writesOf pfx (env a), [.submit (env a).execId q]⟩) ∧
    (∀ env pf q dr pfx k a f s3 e, f + k ≤ MAX_ATHENA_ERRORS →
      (∀ j, j < k → failsAt env pf (a + j)) →
      attemptResult env pf (a + k) = some (.SUCCEEDED, e) →
      (query_athena_and_wait env pf q dr pfx a f s3).status =
        .ok (if dr then none
          else some (basenameStr (env (a + k)).outputLocation)) ∧
      (query_athena_and_wait env pf q dr pfx a f s3).trace = succTrace env q a k) := by
  refine ⟨?_, ?_, ?_⟩
  · intro env pf q dr pfx a f s3 st e h hst hf
    refine ⟨?_, wait_trace_head env pf q dr pfx (a + 1) (f + 1) _, ?_⟩
    · rw [wait_fail_step env pf q dr pfx a f s3 st e h hst hf]
    · rw [wait_fail_step env pf q dr pfx a f s3 st e h hst hf]
  · intro env pf q dr pfx a f s3 st e h hst hf
    exact wait_fail_fatal env pf q dr pfx a f s3 st e h hst hf
  · intro env pf q dr pfx k a f s3 e hcap hfail hsucc
    rw [wait_run_succ env pf q dr pfx k a f s3 e hcap hfail hsucc]
    exact ⟨rfl, rfl⟩

/-- Witness for C2: a failing first submission with spare failure budget
retries after a cooldown of 5 with the same query text and the execution
id of the next submission; with the budget exhausted the call aborts
with no second submission; with a later success it returns ok. -/
theorem retry_policy_spec_witness :
    (query_athena_and_wait envMixed 3 "sql" true "p" 0 0 []).trace =
      .submit (envMixed 0).execId "sql" :: .cooldown 5 ::
        (query_athena_and_wait envMixed 3 "sql" true "p" 1 1
          ([] ++ writesOf "p" (envMixed 0))).trace ∧
    query_athena_and_wait envSixFail 3 "sql" true "p" 0 MAX_ATHENA_ERRORS [] =
      ⟨.fatal, MAX_ATHENA_ERRORS + 1, [] ++ writesOf "p" (envSixFail 0),
        [.submit (envSixFail 0).execId "sql"]⟩ ∧
    (query_athena_and_wait envMixed 3 "sql" true "p" 0 0 []).status = .ok none := by
  refine ⟨?_, ?_, ?_⟩
  · exact (retry_policy_spec.1 envMixed 3 "sql" true "p" 0 0 [] .FAILED 1 (by decide)
      (by decide) (by decide)).1
  · exact retry_policy_spec.2.1 envSixFail 3 "sql" true "p" 0 MAX_ATHENA_ERRORS []
      .FAILED 1 (by decide) (by decide) (Nat.le_refl _)
  · have h := (retry_policy_spec.2.2 envMixed 3 "sql" true "p" 3 0 0 [] 1 (by decide)
      (fun j hj => by
        interval_cases j <;> exact ⟨.FAILED, 1, by decide, by decide⟩)
      (by decide)).1
    simpa using h

/-- Split a list of characters at every occurrence of `c` (used to model
line and field splitting of the CSV result, `Char.ofNat 10` being the
newline and `Char.ofNat 44` the comma). -/
def splitChar (c : Char) : List Char → List (List Char)
  | [] => [[]]
  | x :: xs =>
    if x = c then [] :: splitChar c xs
    else
      match splitChar c xs with
      | [] => [[x]]
      | h :: t => (x :: h) :: t

/-- The non-empty lines of the result object; `csv.DictReader` skips
rows coming from empty lines (including the trailing newline). -/
def csvLines (s : String) : List String :=
  ((splitChar (Char.ofNat 10) s.data).map String.mk).filter (fun l => l != "")

/-- The comma-separated fields of one CSV line (the claims use only
results without quoting or embedded separators, where the csv module
splits on the bare comma). -/
def csvFields (s : String) : List String :=
  (splitChar (Char.ofNat 44) s.data).map String.mk

/-- `csv.DictReader` over the result content (lines 391-393): the first
line is the header, each further line becomes the association of header
field names to the values of the line. -/
def dictReaderRows (content : String) : List (List (String × String)) :=
  match csvLines content with
  | [] => []
  | header :: rest => rest.map (fun line => (csvFields header).zip (csvFields line))

/-- Local filesystem model: filename to content; a write prepends. -/
def fsGet (fs : List (String × String)) (p : String) : Option String :=
  (fs.find? (fun en => en.1 == p)).map (fun en => en.2)

/-- Result of `query_athena_and_download`. -/
inductive DownloadResult where
  | ok (localPath : String) (s3 : List S3Obj) (fs : List (String × String))
  | storeError
  | fatal
  | pending
deriving DecidableEq, Repr

/-- `AthenaDatabase.query_athena_and_download` (lines 370-381): run the
query with delete_results=False, download the result object from the
session output location to `scriptDir/tmp/fname`, then delete every
object under the session output location, and return the local path.
`storeError` models the client error when the downloaded key is absent
(the code does not catch it). -/
def query_athena_and_download (env : Nat → Attempt) (pf : Nat)
    (q fname pfx scriptDir : String) (a f : Nat) (s3 : List S3Obj)
    (fs : List (String × String)) : DownloadResult :=
  let r := query_athena_and_wait env pf q false pfx a f s3
  match r.status with
  | .ok (some fn) =>
    match s3Get r.s3 (pfx ++ "/" ++ fn) with
    | none => .storeError
    | some c =>
      .ok (scriptDir ++ "/tmp/" ++ fname) (deleteByPfx pfx r.s3)
        ((scriptDir ++ "/tmp/" ++ fname, c) :: fs)
  | .ok none => .storeError
  | .fatal => .fatal
  | .pending => .pending

/-- Result of `query_athena_and_get_result`. -/
inductive SingleRowResult where
  | ok (row : List (String × String)) (s3 : List S3Obj)
  | assertFail (s3 : List S3Obj)
  | storeError
  | fatal
  | pending
deriving DecidableEq, Repr

/-- `AthenaDatabase.query_athena_and_get_result` (lines 383-395): run
the query with delete_results=False, read the result object, delete
every object under the session output location, parse the content with
DictReader, assert exactly one data row and return it.  Note the source
deletes before the assertion, so `assertFail` carries the cleaned
store. -/
def query_athena_and_get_result (env : Nat → Attempt) (pf : Nat) (q pfx : String)
    (a f : Nat) (s3 : List S3Obj) : SingleRowResult :=
  let r := query_athena_and_wait env pf q false pfx a f s3
  match r.status with
  | .ok (some fn) =>
    match s3Get r.s3 (pfx ++ "/" ++ fn) with
    | none => .storeError
    | some c =>
      match dictReaderRows c with
      | [row] => .ok row (deleteByPfx pfx r.s3)
      | _ => .assertFail (deleteByPfx pfx r.s3)
  | .ok none => .storeError
  | .fatal => .fatal
  | .pending => .pending

/-- The query string of `table_exists` (lines 398-402), with the quote
character written as `Char.ofNat 39`. -/
def showTablesQuery (db tbl : String) : String :=
  "show tables in " ++ db ++ " " ++ String.mk [Char.ofNat 39] ++ tbl ++
    String.mk [Char.ofNat 39]

/-- Result of `table_exists`. -/
inductive TableExistsResult where
  | ok (found : Bool) (s3 : List S3Obj)
  | storeError
  | fatal
  | pending
deriving DecidableEq, Repr

/-- `AthenaDatabase.table_exists` (lines 397-412): run the listing query
with delete_results=False, probe the content length of the result
object (zero bytes means the table is absent), delete every object
under the session output location and return the boolean. -/
def table_exists (env : Nat → Attempt) (pf : Nat) (pfx db tbl : String)
    (a f : Nat) (s3 : List S3Obj) : TableExistsResult :=
  let r := query_athena_and_wait env pf (showTablesQuery db tbl) false pfx a f s3
  match r.status with
  | .ok (some fn) =>
    match s3Get r.s3 (pfx ++ "/" ++ fn) with
    | none => .storeError
    | some c =>
      let ex := if c.length = 0 then false else true
      .ok ex (deleteByPfx pfx r.s3)
  | .ok none => .storeError
  | .fatal => .fatal
  | .pending => .pending

theorem wait_succ_false (env : Nat → Attempt) (pf : Nat) (q pfx : String)
    (a f : Nat) (s3 : List S3Obj) (e : Nat)
    (h : attemptResult env pf a = some (.SUCCEEDED, e)) :
    query_athena_and_wait env pf q false pfx a f s3 =
      ⟨.ok (some (basenameStr (env a).outputLocation)), 0,
        s3 ++ writesOf pfx (env a), [.submit (env a).execId q]⟩ := by
  rw [wait_succ env pf q false pfx a f s3 e h]
  rfl

/-- C5: For every query that succeeds, query_athena_and_download runs
the query to completion with delete_results=False, downloads the single
result object to the local path derived from the given filename so the
local file contains exactly the remote result bytes, then always
deletes everything under the session output location (deletion happens
after the download completes: the downloaded content is the content the
object had before the deletion), and returns the local path. -/
theorem download_spec :
    ∀ env pf q fname pfx scriptDir a f s3 fs e d name c,
      attemptResult env pf a = some (.SUCCEEDED, e) →
      (env a).outputLocation = d ++ "/" ++ name →
      Char.ofNat 47 ∉ name.data →
      s3Get (s3 ++ writesOf pfx (env a)) (pfx ++ "/" ++ name) = some c →
      query_athena_and_download env pf q fname pfx scriptDir a f s3 fs =
        .ok (scriptDir ++ "/tmp/" ++ fname)
          (deleteByPfx pfx (s3 ++ writesOf pfx (env a)))
          ((scriptDir ++ "/tmp/" ++ fname, c) :: fs) ∧
      fsGet ((scriptDir ++ "/tmp/" ++ fname, c) :: fs)
        (scriptDir ++ "/tmp/" ++ fname) = some c ∧
      (∀ o ∈ deleteByPfx pfx (s3 ++ writesOf pfx (env a)),
        keyHasPfx pfx o.key = false) := by
  intro env pf q fname pfx scriptDir a f s3 fs e d name c hsucc hout hname hget
  have hw := wait_succ_false env pf q pfx a f s3 e hsucc
  refine ⟨?_, ?_, mem_deleteByPfx pfx _⟩
  · simp only [query_athena_and_download]
    rw [hw, hout, basenameStr_append d name hname]
    simp only [hget]
  · simp [fsGet]

/-- Helper: under the standard success hypotheses, the single-row call
reduces to the row-count dispatch on the parsed content, with the
session output location already cleaned in either branch. -/
theorem get_result_run (env : Nat → Attempt) (pf : Nat) (q pfx : String)
    (a f : Nat) (s3 : List S3Obj) (e : Nat) (d name c : String)
    (hsucc : attemptResult env pf a = some (.SUCCEEDED, e))
    (hout : (env a).outputLocation = d ++ "/" ++ name)
    (hname : Char.ofNat 47 ∉ name.data)
    (hget : s3Get (s3 ++ writesOf pfx (env a)) (pfx ++ "/" ++ name) = some c) :
    query_athena_and_get_result env pf q pfx a f s3 =
      match dictReaderRows c with
      | [row] => .ok row (deleteByPfx pfx (s3 ++ writesOf pfx (env a)))
      | _ => .assertFail (deleteByPfx pfx (s3 ++ writesOf pfx (env a))) := by
  have hw := wait_succ_false env pf q pfx a f s3 e hsucc
  simp only [query_athena_and_get_result]
  rw [hw, hout, basenameStr_append d name hname]
  simp only [hget]

/-- C6: query_athena_and_get_result, for every successful query whose
result CSV has exactly one data row after the header, returns a mapping
from each header field name to the value of that row with all header
fields populated; for every result with zero data rows or two or more
data rows it raises a hard assertion failure. -/
theorem single_row_result_spec :
    ∀ env pf q pfx a f s3 e d name c,
      attemptResult env pf a = some (.SUCCEEDED, e) →
      (env a).outputLocation = d ++ "/" ++ name →
      Char.ofNat 47 ∉ name.data →
      s3Get (s3 ++ writesOf pfx (env a)) (pfx ++ "/" ++ name) = some c →
      (∀ header line, csvLines c = [header, line] →
        (csvFields line).length = (csvFields header).length →
        query_athena_and_get_result env pf q pfx a f s3 =
          .ok ((csvFields header).zip (csvFields line))
            (deleteByPfx pfx (s3 ++ writesOf pfx (env a))) ∧
        ((csvFields header).zip (csvFields line)).map Prod.fst = csvFields header) ∧
      ((dictReaderRows c).length ≠ 1 →
        query_athena_and_get_result env pf q pfx a f s3 =
          .assertFail (deleteByPfx pfx (s3 ++ writesOf pfx (env a)))) := by
  intro env pf q pfx a f s3 e d name c hsucc hout hname hget
  have hr := get_result_run env pf q pfx a f s3 e d name c hsucc hout hname hget
  constructor
  · intro header line hlines hlen
    have hrows : dictReaderRows c = [(csvFields header).zip (csvFields line)] := by
      rw [dictReaderRows, hlines]
      rfl
    rw [hr, hrows]
    exact ⟨rfl, List.map_fst_zip _ _ (Nat.le_of_eq hlen.symm)⟩
  · intro hne
    rw [hr]
    rcases hrows : dictReaderRows c with _ | ⟨row, _ | ⟨r2, rest⟩⟩
    · rfl
    · rw [hrows] at hne
      simp at hne
    · rfl

/-- C7: table_exists returns false exactly when the result object of
the listing query has content length zero and true for any non-empty
result object, deciding by byte length alone, independent of the row
content of the result. -/
theorem table_exists_spec :
    ∀ env pf pfx db tbl a f s3 e d name c,
      attemptResult env pf a = some (.SUCCEEDED, e) →
      (env a).outputLocation = d ++ "/" ++ name →
      Char.ofNat 47 ∉ name.data →
      s3Get (s3 ++ writesOf pfx (env a)) (pfx ++ "/" ++ name) = some c →
      table_exists env pf pfx db tbl a f s3 =
        .ok (if c.length = 0 then false else true)
          (deleteByPfx pfx (s3 ++ writesOf pfx (env a))) ∧
      (c = "" →
        table_exists env pf pfx db tbl a f s3 =
          .ok false (deleteByPfx pfx (s3 ++ writesOf pfx (env a)))) ∧
      (c ≠ "" →
        table_exists env pf pfx db tbl a f s3 =
          .ok true (deleteByPfx pfx (s3 ++ writesOf pfx (env a)))) := by
  intro env pf pfx db tbl a f s3 e d name c hsucc hout hname hget
  have hw := wait_succ_false env pf (showTablesQuery db tbl) pfx a f s3 e hsucc
  have hmain : table_exists env pf pfx db tbl a f s3 =
      .ok (if c.length = 0 then false else true)
        (deleteByPfx pfx (s3 ++ writesOf pfx (env a))) := by
    simp only [table_exists]
    rw [hw, hout, basenameStr_append d name hname]
    simp only [hget]
  refine ⟨hmain, ?_, ?_⟩
  · intro hc
    rw [hmain, if_pos (by rw [hc]; rfl)]
  · intro hc
    rw [hmain, if_neg ?_]
    intro hlen
    exact hc (by
      cases hcc : c.data with
      | nil => cases c; simp_all
      | cons x xs =>
        rw [String.length, hcc] at hlen
        simp at hlen)

/-- Witness environment: one succeeding attempt whose result object has
a header and no data row. -/
def envHdrOnly : Nat → Attempt := fun a =>
  ⟨"exec" ++ toString a, fun _ => .SUCCEEDED,
    "s3://bucket/tmp/athena/x/result" ++ toString a ++ ".csv",
    [("result" ++ toString a ++ ".csv", "c1,c2")]⟩

/-- Witness environment: one succeeding attempt whose result object has
a header and two data rows. -/
def envTwoRows : Nat → Attempt := fun a =>
  ⟨"exec" ++ toString a, fun _ => .SUCCEEDED,
    "s3://bucket/tmp/athena/x/result" ++ toString a ++ ".csv",
    [("result" ++ toString a ++ ".csv",
      "c1,c2" ++ String.mk [Char.ofNat 10] ++ "v1,v2" ++ String.mk [Char.ofNat 10] ++
        "w1,w2")]⟩

/-- Witness environment: one succeeding attempt whose result object is
empty (zero bytes). -/
def envEmptyObj : Nat → Attempt := fun a =>
  ⟨"exec" ++ toString a, fun _ => .SUCCEEDED,
    "s3://bucket/tmp/athena/x/result" ++ toString a ++ ".csv",
    [("result" ++ toString a ++ ".csv", "")]⟩

/-- Witness for C5: a concrete successful download. -/
theorem download_spec_witness :
    query_athena_and_download envSucc 3 "select 1" "out.csv" "tmp/athena/x" "/app"
        0 0 [] [] =
      .ok ("/app" ++ "/tmp/" ++ "out.csv")
        (deleteByPfx "tmp/athena/x" ([] ++ writesOf "tmp/athena/x" (envSucc 0)))
        (("/app" ++ "/tmp/" ++ "out.csv",
          "c1,c2" ++ String.mk [Char.ofNat 10] ++ "v1,v2") :: []) := by
  exact (download_spec envSucc 3 "select 1" "out.csv" "tmp/athena/x" "/app" 0 0 [] [] 1
    "s3://bucket/tmp/athena/x" "result0.csv"
    ("c1,c2" ++ String.mk [Char.ofNat 10] ++ "v1,v2")
    (by decide) (by decide) (by decide) (by decide)).1

/-- Witness for C6: one data row gives the header-to-value mapping; a
header-only result aborts with the assertion. -/
theorem single_row_result_spec_witness :
    query_athena_and_get_result envSucc 3 "select 1" "tmp/athena/x" 0 0 [] =
      .ok ((csvFields "c1,c2").zip (csvFields "v1,v2"))
        (deleteByPfx "tmp/athena/x" ([] ++ writesOf "tmp/athena/x" (envSucc 0))) ∧
    query_athena_and_get_result envHdrOnly 3 "select 1" "tmp/athena/x" 0 0 [] =
      .assertFail
        (deleteByPfx "tmp/athena/x" ([] ++ writesOf "tmp/athena/x" (envHdrOnly 0))) := by
  constructor
  · exact (((single_row_result_spec envSucc 3 "select 1" "tmp/athena/x" 0 0 [] 1
      "s3://bucket/tmp/athena/x" "result0.csv"
      ("c1,c2" ++ String.mk [Char.ofNat 10] ++ "v1,v2")
      (by decide) (by decide) (by decide) (by decide)).1) "c1,c2" "v1,v2"
      (by decide) (by decide)).1
  · exact (single_row_result_spec envHdrOnly 3 "select 1" "tmp/athena/x" 0 0 [] 1
      "s3://bucket/tmp/athena/x" "result0.csv" "c1,c2"
      (by decide) (by decide) (by decide) (by decide)).2 (by decide)

/-- Witness for C7: an empty result object means absent, a non-empty
one means present. -/
theorem table_exists_spec_witness :
    table_exists envEmptyObj 3 "tmp/athena/x" "db" "tbl" 0 0 [] =
      .ok false
        (deleteByPfx "tmp/athena/x" ([] ++ writesOf "tmp/athena/x" (envEmptyObj 0))) ∧
    table_exists envSucc 3 "tmp/athena/x" "db" "tbl" 0 0 [] =
      .ok true
        (deleteByPfx "tmp/athena/x" ([] ++ writesOf "tmp/athena/x" (envSucc 0))) := by
  constructor
  · exact (table_exists_spec envEmptyObj 3 "tmp/athena/x" "db" "tbl" 0 0 [] 1
      "s3://bucket/tmp/athena/x" "result0.csv" ""
      (by decide) (by decide) (by decide) (by decide)).2.1 rfl
  · exact (table_exists_spec envSucc 3 "tmp/athena/x" "db" "tbl" 0 0 [] 1
      "s3://bucket/tmp/athena/x" "result0.csv"
      ("c1,c2" ++ String.mk [Char.ofNat 10] ++ "v1,v2")
      (by decide) (by decide) (by decide) (by decide)).2.2 (by decide)

/-- Counterexample for C8: in a session whose six consecutive
submissions all fail (each also leaving a transient metadata object
under the session output location), the circuit-breaker fatal abort
exits with objects still present under the output location, so the
fatal path does attempt no cleanup. -/
theorem cleanup_fatal_counterexample :
    (query_athena_and_wait envSixFail 3 "q" true "tmp/athena/x" 0 0 []).status =
      .fatal ∧
    (query_athena_and_wait envSixFail 3 "q" true "tmp/athena/x" 0 0 []).s3.any
      (fun o => keyHasPfx "tmp/athena/x" o.key) = true := by decide

theorem wait_succ_true (env : Nat → Attempt) (pf : Nat) (q pfx : String)
    (a f : Nat) (s3 : List S3Obj) (e : Nat)
    (h : attemptResult env pf a = some (.SUCCEEDED, e)) :
    query_athena_and_wait env pf q true pfx a f s3 =
      ⟨.ok none, 0, deleteByPfx pfx (s3 ++ writesOf pfx (env a)),
        [.submit (env a).execId q]⟩ := by
  rw [wait_succ env pf q true pfx a f s3 e h]
  rfl

/-- C8 (amended): cleanup of the session output location is attempted
on the success path with delete_results=True and on the single-row
contract-violation abort (which deletes the output location before the
assertion fires); the circuit-breaker fatal abort, however, exits
without attempting cleanup and leaves every transient object written
under the output location in place. -/
theorem cleanup_paths_spec :
    (∀ env pf q pfx a f s3 e, attemptResult env pf a = some (.SUCCEEDED, e) →
      ∀ o ∈ (query_athena_and_wait env pf q true pfx a f s3).s3,
        keyHasPfx pfx o.key = false) ∧
    (∀ env pf q pfx a f s3 e d name c,
      attemptResult env pf a = some (.SUCCEEDED, e) →
      (env a).outputLocation = d ++ "/" ++ name →
      Char.ofNat 47 ∉ name.data →
      s3Get (s3 ++ writesOf pfx (env a)) (pfx ++ "/" ++ name) = some c →
      (dictReaderRows c).length ≠ 1 →
      query_athena_and_get_result env pf q pfx a f s3 =
        .assertFail (deleteByPfx pfx (s3 ++ writesOf pfx (env a))) ∧
      ∀ o ∈ deleteByPfx pfx (s3 ++ writesOf pfx (env a)),
        keyHasPfx pfx o.key = false) ∧
    (∀ env pf q dr pfx n a f s3, f + n = MAX_ATHENA_ERRORS →
      (∀ j, j ≤ n → failsAt env pf (a + j)) →
      (query_athena_and_wait env pf q dr pfx a f s3).status = .fatal ∧
      (query_athena_and_wait env pf q dr pfx a f s3).s3 =
        s3 ++ allWrites env pfx a (n + 1)) := by
  refine ⟨?_, ?_, ?_⟩
  · intro env pf q pfx a f s3 e h
    rw [wait_succ_true env pf q pfx a f s3 e h]
    exact mem_deleteByPfx pfx _
  · intro env pf q pfx a f s3 e d name c hsucc hout hname hget hne
    have hr := get_result_run env pf q pfx a f s3 e d name c hsucc hout hname hget
    refine ⟨?_, mem_deleteByPfx pfx _⟩
    rw [hr]
    rcases hrows : dictReaderRows c with _ | ⟨row, _ | ⟨r2, rest⟩⟩
    · rfl
    · rw [hrows] at hne
      simp at hne
    · rfl
  · intro env pf q dr pfx n a f s3 hf hfail
    rw [wait_run_fail env pf q dr pfx n a f s3 hf hfail]
    exact ⟨rfl, rfl⟩

/-- Witness for C8 (amended): the three cleanup behaviours at concrete
environments -- success cleans, the two-row contract violation cleans
before aborting, the circuit-breaker abort deletes nothing. -/
theorem cleanup_paths_spec_witness :
    (query_athena_and_wait envSucc 3 "q" true "tmp/athena/x" 0 0 []).s3.all
      (fun o => !(keyHasPfx "tmp/athena/x" o.key)) = true ∧
    query_athena_and_get_result envTwoRows 3 "q" "tmp/athena/x" 0 0 [] =
      .assertFail
        (deleteByPfx "tmp/athena/x" ([] ++ writesOf "tmp/athena/x" (envTwoRows 0))) ∧
    (query_athena_and_wait envSixFail 3 "q" true "tmp/athena/x" 0 0 []).s3 =
      [] ++ allWrites envSixFail "tmp/athena/x" 0 6 := by
  refine ⟨?_, ?_, ?_⟩
  · have h := cleanup_paths_spec.1 envSucc 3 "q" "tmp/athena/x" 0 0 [] 1 (by decide)
    rw [List.all_eq_true]
    intro o ho
    simpa using h o ho
  · exact (cleanup_paths_spec.2.1 envTwoRows 3 "q" "tmp/athena/x" 0 0 [] 1
      "s3://bucket/tmp/athena/x" "result0.csv"
      ("c1,c2" ++ String.mk [Char.ofNat 10] ++ "v1,v2" ++ String.mk [Char.ofNat 10] ++
        "w1,w2")
      (by decide) (by decide) (by decide) (by decide) (by decide)).1
  · exact (cleanup_paths_spec.2.2 envSixFail 3 "q" true "tmp/athena/x" 5 0 0 []
      (by decide) (fun j hj => ⟨.FAILED, 1, rfl, by decide⟩)).2

theorem string_eq_of_data (a b : String) (h : a.data = b.data) : a = b := by
  cases a
  cases b
  exact congrArg String.mk h

theorem string_append_empty (a : String) : a ++ "" = a := by
  apply string_eq_of_data
  rw [string_data_append, show ("" : String).data = [] from rfl, List.append_nil]

/-- The characters of the Python literal ".bz2": the argument of
`s3_key.strip(".bz2")` (line 171), which strips any of these characters
from both ends. -/
def pyStripChars : List Char := [Char.ofNat 46, Char.ofNat 98, Char.ofNat 122, Char.ofNat 50]

/-- Python `s.strip(chars)`: remove from both ends every character that
belongs to `chars`. -/
def pyStrip (cs : List Char) (s : String) : String :=
  String.mk (((s.data.dropWhile (fun c => cs.contains c)).reverse.dropWhile
    (fun c => cs.contains c)).reverse)

/-- The partitions argument of `save_data_in_s3`: a mapping that either
carries an iteration order (an `OrderedDict`) or does not (a plain
mapping). -/
inductive PartitionsArg where
  | ordered (entries : List (String × String))
  | unordered (entries : List (String × String))
deriving DecidableEq, Repr

/-- Shape of the content argument (a Python list of records, a dict, or
anything else). -/
inductive ContentArg where
  | pyList
  | pyDict
  | pyOther
deriving DecidableEq, Repr

/-- The partition segment string built by the loop of lines 164-166:
concatenation of key=value/ in iteration order, accumulated left to
right. -/
def partitionString (entries : List (String × String)) : String :=
  entries.foldl (fun acc kv => acc ++ kv.1 ++ "=" ++ kv.2 ++ "/") ""

/-- Structural description of the partition segment string, to compare
against the accumulating loop. -/
def partsPathSpec : List (String × String) → String
  | [] => ""
  | kv :: rest => kv.1 ++ "=" ++ kv.2 ++ "/" ++ partsPathSpec rest

/-- `save_data_in_s3` (lines 160-195), restricted to the storage key it
uploads to and the usage errors it raises: reject a partitions argument
that is not an OrderedDict; write content to
`./tempDir/<s3_key stripped of .bz2 chars>` (rejecting content that is
neither list nor dict); when compressing, the file moves to
`scriptDir/tmp/<basename>.bz2`; the key is the optional prefix segment,
then the partition segments in iteration order, then the basename of
the uploaded file. -/
def save_data_in_s3_key (scriptDir tempDir s3_key : String) (pfxO : Option String)
    (partitions : Option PartitionsArg) (content : ContentArg)
    (compress_file : Bool) : Except String String :=
  match partitions with
  | some (.unordered _) => .error "partitions must be an OrderedDict"
  | _ =>
    let filename0 := "./" ++ tempDir ++ "/" ++ pyStrip pyStripChars s3_key
    match content with
    | .pyOther => .error "content must be dict or list"
    | _ =>
      let filename := if compress_file
        then scriptDir ++ "/tmp/" ++ basenameStr filename0 ++ ".bz2"
        else filename0
      let p0 := match pfxO with
        | some p => p ++ "/"
        | none => ""
      let p1 := p0 ++ (match partitions with
        | some (.ordered entries) => partitionString entries
        | _ => "")
      .ok (p1 ++ basenameStr filename)

theorem partitionString_foldl (entries : List (String × String)) :
    ∀ acc, List.foldl (fun acc kv => acc ++ kv.1 ++ "=" ++ kv.2 ++ "/") acc entries =
      acc ++ partsPathSpec entries := by
  induction entries with
  | nil =>
    intro acc
    rw [List.foldl_nil, partsPathSpec, string_append_empty]
  | cons kv rest ih =>
    intro acc
    rw [List.foldl_cons, ih, partsPathSpec]
    apply string_eq_of_data
    simp [string_data_append]

theorem partitionString_eq (entries : List (String × String)) :
    partitionString entries = partsPathSpec entries := by
  rw [partitionString, partitionString_foldl]
  apply string_eq_of_data
  rw [string_data_append, show ("" : String).data = [] from rfl, List.nil_append]

theorem basenameStr_tmp (tempDir name : String) (h : Char.ofNat 47 ∉ name.data) :
    basenameStr ("./" ++ tempDir ++ "/" ++ name) = name :=
  basenameStr_append ("./" ++ tempDir) name h

theorem basenameStr_compressed (scriptDir name : String)
    (h : Char.ofNat 47 ∉ name.data) :
    basenameStr (scriptDir ++ "/tmp/" ++ name ++ ".bz2") = name ++ ".bz2" := by
  have hsplit : scriptDir ++ "/tmp/" ++ name ++ ".bz2" =
      (scriptDir ++ "/tmp") ++ "/" ++ (name ++ ".bz2") := by
    apply string_eq_of_data
    simp [string_data_append, show ("/tmp/" : String).data = "/tmp".data ++ "/".data
      from by decide]
  rw [hsplit]
  apply basenameStr_append
  rw [string_data_append]
  intro hmem
  rcases List.mem_append.mp hmem with hm | hm
  · exact h hm
  · revert hm
    decide

/-- C9: For every explicitly ordered partition mapping, save_data_in_s3
computes the storage key prefix/key1=value1/key2=value2/.../filename
preserving the iteration order of the mapping even when key names are
not lexicographically sorted (the final component being the basename of
the uploaded file: the s3_key with the characters of ".bz2" stripped
from both ends, plus ".bz2" again when compressing); in particular the
ordered mapping year 2020, month 1 with filename data.csv.bz2 yields
the key year=2020/month=1/data.csv.bz2; passing an unordered mapping as
partitions raises a usage error. -/
theorem save_data_key_spec :
    (∀ scriptDir tempDir s3_key pfxO entries cf,
      Char.ofNat 47 ∉ (pyStrip pyStripChars s3_key).data →
      save_data_in_s3_key scriptDir tempDir s3_key pfxO
          (some (.ordered entries)) .pyList cf =
        .ok ((match pfxO with | some p => p ++ "/" | none => "") ++
          partsPathSpec entries ++
          (pyStrip pyStripChars s3_key ++ (if cf then ".bz2" else "")))) ∧
    (save_data_in_s3_key "/app" "tempdir" "data.csv.bz2" none
        (some (.ordered [("year", "2020"), ("month", "1")])) .pyList true =
      .ok "year=2020/month=1/data.csv.bz2") ∧
    (∀ scriptDir tempDir s3_key pfxO entries content cf,
      save_data_in_s3_key scriptDir tempDir s3_key pfxO
          (some (.unordered entries)) content cf =
        .error "partitions must be an OrderedDict") := by
  refine ⟨?_, by rfl, ?_⟩
  · intro scriptDir tempDir s3_key pfxO entries cf h
    simp only [save_data_in_s3_key]
    rw [basenameStr_tmp tempDir _ h, partitionString_eq]
    cases cf with
    | true =>
      simp only [if_pos (rfl : true = true), if_true]
      rw [basenameStr_compressed scriptDir _ h]
    | false =>
      simp only [if_neg (show ¬(false = true) by decide), if_false]
      rw [basenameStr_tmp tempDir _ h, string_append_empty]
  · intro scriptDir tempDir s3_key pfxO entries content cf
    rfl

/-- Witness for C9: the general key shape at a concrete prefix and a
deliberately non-alphabetical ordered mapping. -/
theorem save_data_key_spec_witness :
    save_data_in_s3_key "/app" "td" "tweets.csv.bz2" (some "raw")
        (some (.ordered [("year", "2020"), ("month", "1")])) .pyList true =
      .ok ((match (some "raw" : Option String) with
          | some p => p ++ "/" | none => "") ++
        partsPathSpec [("year", "2020"), ("month", "1")] ++
        (pyStrip pyStripChars "tweets.csv.bz2" ++ (if true then ".bz2" else ""))) := by
  exact save_data_key_spec.1 "/app" "td" "tweets.csv.bz2" (some "raw")
    [("year", "2020"), ("month", "1")] true (by decide)

/-- `URLExpander.NOT_HTTP_HTTPS` (line 422). -/
def NOT_HTTP_HTTPS : Nat := 601

/-- `URLExpander.EXCEPTION_DURING_ACCESS` (line 423). -/
def EXCEPTION_DURING_ACCESS : Nat := 600

/-- One record of the list `expand_url` returns.  The records of the
non-HTTP(S) and exception branches carry no content type key, modelled
as `none`. -/
structure UrlRecord where
  url : String
  validated_url : String
  status_code : Nat
  content_type : Option String
  content_length : Nat
  created_at : String
deriving DecidableEq, Repr

/-- Response of a successful HEAD request with redirects followed. -/
structure HeadResponse where
  finalUrl : String
  status_code : Nat
  content_length_header : Option String
  content_type_header : Option String
  history : List (String × Nat × Option String × Option String)

/-- Outcome of the HEAD request: a response, or any raised exception. -/
inductive NetOutcome where
  | ok (r : HeadResponse)
  | exn

/-- Characters admissible in a URL scheme after the first. -/
def schemeChar (c : Char) : Bool :=
  c.isAlpha || c.isDigit || c == Char.ofNat 43 || c == Char.ofNat 45 || c == Char.ofNat 46

/-- A valid scheme part: non-empty, first character a letter, all
characters scheme characters. -/
def schemeOk : List Char → Bool
  | [] => false
  | c :: cs => c.isAlpha && (c :: cs).all schemeChar

/-- `urlparse(url).scheme`: the lowercased text before the first colon
when it forms a valid scheme, otherwise the empty string. -/
def urlScheme (url : String) : String :=
  let l := url.data
  let before := l.takeWhile (fun c => c != Char.ofNat 58)
  if l.contains (Char.ofNat 58) && schemeOk before then
    String.mk (before.map Char.toLower)
  else ""

/-- `int(headers.get("content-length", "0").strip())` with a ValueError
collapsing to 0 (non-numeric text gives 0; the source could produce a
negative int, which no claim exercises, so lengths are naturals). -/
def parseCL (h : Option String) : Nat :=
  ((h.getD "0").trim.toNat?).getD 0

/-- `URLExpander.expand_url` (lines 431-483).  `net` is the behaviour of
`requests.head` for a given URL; the second component of the returned
pair counts how many network calls were made.  A URL whose scheme is
not http or https is classified `NOT_HTTP_HTTPS` without any network
call; an exception is classified `EXCEPTION_DURING_ACCESS`; otherwise
one record for the final response plus one per redirect hop, each hop
annotated with the final validated URL. -/
def expand_url (net : String → NetOutcome) (now : String) (url : String) :
    List UrlRecord × Nat :=
  if urlScheme url ≠ "https" ∧ urlScheme url ≠ "http" then
    ([⟨url, url, NOT_HTTP_HTTPS, none, 0, now⟩], 0)
  else
    match net url with
    | .exn => ([⟨url, url, EXCEPTION_DURING_ACCESS, none, 0, now⟩], 1)
    | .ok r =>
      let mainRec : UrlRecord := ⟨r.finalUrl, r.finalUrl, r.status_code,
        some (r.content_type_header.getD ""), parseCL r.content_length_header, now⟩
      (mainRec :: r.history.map (fun hop => ⟨hop.1, r.finalUrl, hop.2.1,
        some (hop.2.2.1.getD ""), parseCL hop.2.2.2, now⟩), 1)

/-- C10: For every URL whose scheme is neither http nor https (for
example ftp), expand_url returns exactly one record, classified with
the dedicated non-HTTP(S) status code 601, with content length zero,
and performs no network call. -/
theorem expand_url_non_http_spec :
    NOT_HTTP_HTTPS = 601 ∧
    ∀ net now url, urlScheme url ≠ "https" → urlScheme url ≠ "http" →
      expand_url net now url = ([⟨url, url, NOT_HTTP_HTTPS, none, 0, now⟩], 0) := by
  refine ⟨rfl, ?_⟩
  intro net now url h1 h2
  rw [expand_url, if_pos ⟨h1, h2⟩]

/-- Witness for C10: a concrete ftp URL. -/
theorem expand_url_non_http_spec_witness :
    expand_url (fun _ => NetOutcome.exn) "1600000000000" "ftp://example.com" =
      ([⟨"ftp://example.com", "ftp://example.com", NOT_HTTP_HTTPS, none, 0,
        "1600000000000"⟩], 0) := by
  exact expand_url_non_http_spec.2 (fun _ => NetOutcome.exn) "1600000000000"
    "ftp://example.com" (by decide) (by decide)

end InternetScholar
